import Mathlib

/-!
Verification of the sweep harness `_main.cpp` of MapAiryDistributionFP64, and of
the spec contracts for the evaluation engine it drives.

The harness (`src/MapAiryDistributionFP64_CPP/_main.cpp`) is embedded exactly:
every value produced by its loops is a dyadic rational `m * 2^e` with `|m| < 2^9`
relative to its binade (grid sweeps have numerators below `2^17`), so every IEEE
double operation performed by the loops (`+`, `-`, `*2`, `/2`, `ldexp`) is exact,
and arithmetic over `ℚ` models the doubles without approximation.

The engine itself (`mapairy_distribution.hpp`) is not part of the available
sources; where a claim is about the engine it is settled against a model built
from the spec (see `MapAiryEngine` below).
-/

/-- Symbolic record of one call from the harness into the engine, including the
complement flag, mirroring the signatures `mapairy_pdf(x)`, `mapairy_cdf(x, c)`,
`mapairy_quantile(p, c)`. -/
inductive EngineCall where
  | pdf (x : ℚ)
  | cdf (x : ℚ) (complement : Bool)
  | quantile (p : ℚ) (complement : Bool)
deriving DecidableEq

/-- Model of one CSV file emitted by a plot function: the path handed to
`ofstream`, the header line, the stream-format state set by
`ofs << std::scientific << std::setprecision(16)`, and one row per loop
iteration holding the swept input and the engine calls whose results are
printed after it. -/
structure CSVFile where
  path : String
  header : String
  sci : Bool
  prec : ℕ
  rows : List (ℚ × List EngineCall)

/-- The inputs column of a file: first component of each data row. -/
def CSVFile.inputs (f : CSVFile) : List ℚ := f.rows.map Prod.fst

/-- All engine calls a file's sweep performs, in order. -/
def CSVFile.calls (f : CSVFile) : List EngineCall := f.rows.flatMap Prod.snd

/-- C `ldexp(m, e) = m * 2^e`; exact for every value the harness uses. -/
def ldexp (m : ℚ) (e : ℤ) : ℚ := m * 2 ^ e

/-- Fuel bound for the loop embeddings; larger than every loop's trip count
(the longest loop runs 71681 times). -/
def sweepFuel : ℕ := 131072

/-- Semantics of a C++ `for (x = init; cond(x); x = step(x)) body(x);` loop,
collecting the rows `body` emits. The fuel only bounds the recursion; every
harness loop is proved to stop strictly before the fuel runs out. -/
def forLoop {α : Type*} (fuel : ℕ) (cond : ℚ → Bool) (step : ℚ → ℚ)
    (body : ℚ → List α) (x : ℚ) : List α :=
  match fuel with
  | 0 => []
  | f + 1 => if cond x then body x ++ forLoop f cond step body (step x) else []

/-- Source lines 6-17: sweep `x` from `-6` to `64` in steps of `1/1024`,
printing `x, mapairy_pdf(x)` to a file headed `x,pdf`. -/
def plot_pdf (filepath : String) : CSVFile :=
  { path := filepath
    header := "x,pdf"
    sci := true
    prec := 16
    rows := forLoop sweepFuel (fun x => decide (x ≤ 64)) (fun x => x + 1 / 1024)
      (fun x => [(x, [EngineCall.pdf x])]) (-6) }

/-- Source lines 19-32: for each octave base `x0 = 64, 128, ..., ldexp(1,64)`,
sweep `x` from `x0` to just below `2*x0` in steps of `x0/256`, printing
`x, mapairy_pdf(x)`. -/
def plot_pdf_limit (filepath : String) : CSVFile :=
  { path := filepath
    header := "x,pdf"
    sci := true
    prec := 16
    rows := forLoop sweepFuel (fun x0 => decide (x0 ≤ ldexp 1 64)) (fun x0 => x0 * 2)
      (fun x0 => forLoop sweepFuel (fun x => decide (x < x0 * 2)) (fun x => x + x0 / 256)
        (fun x => [(x, [EngineCall.pdf x])]) x0) 64 }

/-- Source lines 34-45: sweep `x` from `-6` to `64` in steps of `1/1024`,
printing `x, mapairy_cdf(x), mapairy_cdf(x, true)`. -/
def plot_cdf (filepath : String) : CSVFile :=
  { path := filepath
    header := "x,cdf,ccdf"
    sci := true
    prec := 16
    rows := forLoop sweepFuel (fun x => decide (x ≤ 64)) (fun x => x + 1 / 1024)
      (fun x => [(x, [EngineCall.cdf x false, EngineCall.cdf x true])]) (-6) }

/-- Source lines 47-60: octave sweep like `plot_pdf_limit`, printing
`x, mapairy_cdf(x, true)`. -/
def plot_cdf_limit (filepath : String) : CSVFile :=
  { path := filepath
    header := "x,ccdf"
    sci := true
    prec := 16
    rows := forLoop sweepFuel (fun x0 => decide (x0 ≤ ldexp 1 64)) (fun x0 => x0 * 2)
      (fun x0 => forLoop sweepFuel (fun x => decide (x < x0 * 2)) (fun x => x + x0 / 256)
        (fun x => [(x, [EngineCall.cdf x true])]) x0) 64 }

/-- Source lines 62-73: sweep `x` from `1/8192` while `x < 1` in steps of
`1/8192`, printing `x, mapairy_quantile(x)`. -/
def plot_quantile (filepath : String) : CSVFile :=
  { path := filepath
    header := "x,quantile"
    sci := true
    prec := 16
    rows := forLoop sweepFuel (fun x => decide (x < 1)) (fun x => x + 1 / 8192)
      (fun x => [(x, [EngineCall.quantile x false])]) (1 / 8192) }

/-- Source lines 75-86: halve `x` from `1/8192` while `x > ldexp(1,-1000)`,
printing `x, mapairy_quantile(x)`. -/
def plot_quantilelower_limit (filepath : String) : CSVFile :=
  { path := filepath
    header := "x,quantile"
    sci := true
    prec := 16
    rows := forLoop sweepFuel (fun x => decide (x > ldexp 1 (-1000))) (fun x => x / 2)
      (fun x => [(x, [EngineCall.quantile x false])]) (1 / 8192) }

/-- Source lines 88-101: for each octave base `x0 = 1/8192` halving while
`x0 > ldexp(1,-128)`, sweep `x` from `x0` down to just above `x0/2` in steps of
`x0/256`, printing `x, mapairy_quantile(x, true)`. -/
def plot_quantileupper_limit (filepath : String) : CSVFile :=
  { path := filepath
    header := "x,cquantile"
    sci := true
    prec := 16
    rows := forLoop sweepFuel (fun x0 => decide (x0 > ldexp 1 (-128))) (fun x0 => x0 / 2)
      (fun x0 => forLoop sweepFuel (fun x => decide (x > x0 / 2)) (fun x => x - x0 / 256)
        (fun x => [(x, [EngineCall.quantile x true])]) x0) (1 / 8192) }

/-- The file `plot_pdf` writes in `main`. -/
def pdfFile : CSVFile := plot_pdf "../results/mapairy_pdf_cpp.csv"

/-- The file `plot_pdf_limit` writes in `main`. -/
def pdfLimitFile : CSVFile := plot_pdf_limit "../results/mapairy_pdf_limit_cpp.csv"

/-- The file `plot_cdf` writes in `main`. -/
def cdfFile : CSVFile := plot_cdf "../results/mapairy_cdf_cpp.csv"

/-- The file `plot_cdf_limit` writes in `main`. -/
def cdfLimitFile : CSVFile := plot_cdf_limit "../results/mapairy_cdf_limit_cpp.csv"

/-- The file `plot_quantile` writes in `main`. -/
def quantileFile : CSVFile := plot_quantile "../results/mapairy_quantile_cpp.csv"

/-- The file `plot_quantilelower_limit` writes in `main`. -/
def quantileLowerFile : CSVFile :=
  plot_quantilelower_limit "../results/mapairy_quantilelower_limit_cpp.csv"

/-- The file `plot_quantileupper_limit` writes in `main`. -/
def quantileUpperFile : CSVFile :=
  plot_quantileupper_limit "../results/mapairy_quantileupper_limit_cpp.csv"

/-- Source lines 103-113: `main` runs the seven plot functions in order.
(Lean reserves the name `main` for an IO entry point, hence `mainRun`.) -/
def mainRun : List CSVFile :=
  [pdfFile, pdfLimitFile, cdfFile, cdfLimitFile, quantileFile, quantileLowerFile,
   quantileUpperFile]

/-- Grid point of the central sweeps: `x = -6 + k/1024`. -/
def gridC (k : ℕ) : ℚ := -6 + k * (1 / 1024)

/-- Grid point of the right-tail octave sweeps: `x = 64*2^i + j*(64*2^i/256)`. -/
def octaveX (i j : ℕ) : ℚ := 64 * 2 ^ i + j * (64 * 2 ^ i / 256)

/-- Grid point of the central quantile sweep: `p = 1/8192 + k/8192`. -/
def gridQ (k : ℕ) : ℚ := 1 / 8192 + k * (1 / 8192)

/-- Grid point of the lower-tail quantile sweep: `p = (1/8192)/2^k`. -/
def lowQ (k : ℕ) : ℚ := 1 / 8192 / 2 ^ k

/-- Grid point of the upper-tail quantile sweep:
`q = x0 - j*(x0/256)` with `x0 = (1/8192)/2^i`. -/
def upQ (i j : ℕ) : ℚ := 1 / 8192 / 2 ^ i - j * (1 / 8192 / 2 ^ i / 256)

/-- Modelled from the spec: the engine source `mapairy_distribution.hpp` is not
under src/ (only its caller `_main.cpp` is), so the three evaluators are
modelled by their spec contracts. A `MapAiryEngine` is any implementation
meeting spec sections 4.2/4.3 and 6: a CDF with values in `[0,1]` that is
strictly increasing (section 4.2 monotonicity), a quantile returning `x` with
`CDF(x) = p` for `p` in `(0,1)`, and a complement quantile returning `x` with
`1 - CDF(x) = q` (section 6). The spec leaves the analytic Map-Airy formulas
open (section 9), so theorems quantify over every engine satisfying the
contract; `refEngine` below shows the contract is satisfiable. -/
structure MapAiryEngine where
  cdf : ℝ → ℝ
  quantile0 : ℝ → ℝ
  quantile1 : ℝ → ℝ
  cdf_nonneg : ∀ x, 0 ≤ cdf x
  cdf_le_one : ∀ x, cdf x ≤ 1
  cdf_strictMono : StrictMono cdf
  quantile0_inv : ∀ p, 0 < p → p < 1 → cdf (quantile0 p) = p
  quantile1_inv : ∀ q, 0 < q → q < 1 → 1 - cdf (quantile1 q) = q

/-- Modelled from the spec, section 6: `distribution(x, complement)` returns
`CDF(x)` when the flag is false and `1 - CDF(x)` when it is true, each by a
stable formulation; the model keeps the exact real value. -/
noncomputable def mapairy_cdf (E : MapAiryEngine) (x : ℝ) (complement : Bool) : ℝ :=
  if complement then 1 - E.cdf x else E.cdf x

/-- Modelled from the spec, section 6: `quantile(p, complement)` returns the
`x` with `CDF(x) = p`, or with `1 - CDF(x) = p` in complement mode. -/
noncomputable def mapairy_quantile (E : MapAiryEngine) (p : ℝ) (complement : Bool) : ℝ :=
  if complement then E.quantile1 p else E.quantile0 p

/-- A concrete inhabitant of the engine contract (the standard Cauchy CDF and
its inverse), showing the spec model is consistent and giving the witness
theorems a computable-by-lemma instance to run on. -/
noncomputable def refEngine : MapAiryEngine where
  cdf x := Real.arctan x / Real.pi + 1 / 2
  quantile0 p := Real.tan (Real.pi * (p - 1 / 2))
  quantile1 q := Real.tan (Real.pi * (1 / 2 - q))
  cdf_nonneg := by
    intro x
    have hπ := Real.pi_pos
    have h := Real.neg_pi_div_two_lt_arctan x
    have h2 : -(1 / 2 : ℝ) ≤ Real.arctan x / Real.pi := by
      rw [le_div_iff₀ hπ]
      linarith
    linarith
  cdf_le_one := by
    intro x
    have hπ := Real.pi_pos
    have h := Real.arctan_lt_pi_div_two x
    have h2 : Real.arctan x / Real.pi ≤ 1 / 2 := by
      rw [div_le_iff₀ hπ]
      linarith
    linarith
  cdf_strictMono := by
    intro a b hab
    have hπ := Real.pi_pos
    have h := Real.arctan_strictMono hab
    have h3 : (0 : ℝ) < (Real.arctan b - Real.arctan a) / Real.pi :=
      div_pos (by linarith) hπ
    have h4 : Real.arctan b / Real.pi - Real.arctan a / Real.pi
        = (Real.arctan b - Real.arctan a) / Real.pi := by ring
    show Real.arctan a / Real.pi + 1 / 2 < Real.arctan b / Real.pi + 1 / 2
    linarith
  quantile0_inv := by
    intro p hp0 hp1
    have hπ := Real.pi_pos
    have hπ' : Real.pi ≠ 0 := ne_of_gt hπ
    have h1 : -(Real.pi / 2) < Real.pi * (p - 1 / 2) := by nlinarith
    have h2 : Real.pi * (p - 1 / 2) < Real.pi / 2 := by nlinarith
    show Real.arctan (Real.tan (Real.pi * (p - 1 / 2))) / Real.pi + 1 / 2 = p
    rw [Real.arctan_tan h1 h2]
    field_simp
    ring
  quantile1_inv := by
    intro q hq0 hq1
    have hπ := Real.pi_pos
    have hπ' : Real.pi ≠ 0 := ne_of_gt hπ
    have h1 : -(Real.pi / 2) < Real.pi * (1 / 2 - q) := by nlinarith
    have h2 : Real.pi * (1 / 2 - q) < Real.pi / 2 := by nlinarith
    show 1 - (Real.arctan (Real.tan (Real.pi * (1 / 2 - q))) / Real.pi + 1 / 2) = q
    rw [Real.arctan_tan h1 h2]
    field_simp
    ring

theorem forLoop_eq {α : Type*} (cond : ℚ → Bool) (step : ℚ → ℚ) (body : ℚ → List α) :
    ∀ (n : ℕ) (x : ℚ) (fuel : ℕ), n ≤ fuel →
      (∀ k, k < n → cond (step^[k] x) = true) →
      cond (step^[n] x) = false →
      forLoop fuel cond step body x = (List.range n).flatMap fun k => body (step^[k] x) := by
  intro n
  induction n with
  | zero =>
    intro x fuel _ _ hs
    rw [Function.iterate_zero_apply] at hs
    cases fuel with
    | zero => simp [forLoop]
    | succ f => simp [forLoop, hs]
  | succ n ih =>
    intro x fuel hn hc hs
    obtain ⟨f, rfl⟩ : ∃ f, fuel = f + 1 := ⟨fuel - 1, by omega⟩
    have hc0 : cond x = true := by
      have h := hc 0 (Nat.succ_pos n)
      rwa [Function.iterate_zero_apply] at h
    have hc' : ∀ k, k < n → cond (step^[k] (step x)) = true := by
      intro k hk
      have h := hc (k + 1) (by omega)
      rwa [Function.iterate_succ_apply] at h
    have hs' : cond (step^[n] (step x)) = false := by
      rwa [Function.iterate_succ_apply] at hs
    rw [forLoop, hc0, if_pos rfl, ih (step x) f (by omega) hc' hs',
      List.range_succ_eq_map, List.flatMap_cons, List.flatMap_map]
    simp only [Function.iterate_zero_apply, Function.iterate_succ_apply]

theorem iterate_add_const (c : ℚ) : ∀ (k : ℕ) (x : ℚ), (fun y => y + c)^[k] x = x + k * c := by
  intro k
  induction k with
  | zero => intro x; simp
  | succ k ih =>
    intro x
    rw [Function.iterate_succ_apply, ih]
    push_cast
    ring

theorem iterate_sub_const (c : ℚ) : ∀ (k : ℕ) (x : ℚ), (fun y => y - c)^[k] x = x - k * c := by
  intro k
  induction k with
  | zero => intro x; simp
  | succ k ih =>
    intro x
    rw [Function.iterate_succ_apply, ih]
    push_cast
    ring

theorem iterate_mul_two : ∀ (k : ℕ) (x : ℚ), (fun y => y * 2)^[k] x = x * 2 ^ k := by
  intro k
  induction k with
  | zero => intro x; simp
  | succ k ih =>
    intro x
    rw [Function.iterate_succ_apply, ih, pow_succ]
    ring

theorem iterate_div_two : ∀ (k : ℕ) (x : ℚ), (fun y => y / 2)^[k] x = x / 2 ^ k := by
  intro k
  induction k with
  | zero => intro x; simp
  | succ k ih =>
    intro x
    rw [Function.iterate_succ_apply, ih, pow_succ]
    ring

theorem flatMap_single {α β : Type*} (l : List α) (f : α → β) :
    (l.flatMap fun a => [f a]) = l.map f := by
  induction l with
  | nil => rfl
  | cons a l ih => simp [List.flatMap_cons, ih]

theorem flatMap_congr' {α β : Type*} (l : List α) (f g : α → List β)
    (h : ∀ a ∈ l, f a = g a) : l.flatMap f = l.flatMap g := by
  induction l with
  | nil => rfl
  | cons a l ih =>
    simp only [List.flatMap_cons]
    rw [h a (by simp), ih fun b hb => h b (by simp [hb])]

theorem forLoop_eq_map {α : Type*} (cond : ℚ → Bool) (step : ℚ → ℚ) (g : ℚ → α)
    (n : ℕ) (x : ℚ) (fuel : ℕ) (hn : n ≤ fuel)
    (hc : ∀ k, k < n → cond (step^[k] x) = true)
    (hs : cond (step^[n] x) = false) :
    forLoop fuel cond step (fun y => [g y]) x = (List.range n).map fun k => g (step^[k] x) := by
  rw [forLoop_eq cond step (fun y => [g y]) n x fuel hn hc hs]
  exact flatMap_single _ _

theorem pdf_rows_eq :
    pdfFile.rows = (List.range 71681).map fun k => (gridC k, [EngineCall.pdf (gridC k)]) := by
  have hc : ∀ k, k < 71681 →
      decide ((((fun y => y + 1 / 1024)^[k] (-6) : ℚ)) ≤ 64) = true := by
    intro k hk
    simp only [iterate_add_const, decide_eq_true_eq]
    have hk' : (k : ℚ) ≤ 71680 := by exact_mod_cast Nat.lt_succ_iff.mp hk
    have h2 : (k : ℚ) * (1 / 1024) ≤ 71680 * (1 / 1024) :=
      mul_le_mul_of_nonneg_right hk' (by norm_num)
    linarith
  have hs : decide ((((fun y => y + 1 / 1024)^[71681] (-6) : ℚ)) ≤ 64) = false := by
    simp only [iterate_add_const, decide_eq_false_iff_not]
    norm_num
  have e : pdfFile.rows = forLoop sweepFuel (fun x => decide (x ≤ 64))
      (fun x => x + 1 / 1024) (fun x => [(x, [EngineCall.pdf x])]) (-6) := rfl
  rw [e, forLoop_eq_map (fun x => decide (x ≤ 64)) (fun x => x + 1 / 1024)
    (fun x => (x, [EngineCall.pdf x])) 71681 (-6) sweepFuel
    (by norm_num [sweepFuel]) hc hs]
  simp only [iterate_add_const, gridC]

theorem cdf_rows_eq :
    cdfFile.rows = (List.range 71681).map fun k =>
      (gridC k, [EngineCall.cdf (gridC k) false, EngineCall.cdf (gridC k) true]) := by
  have hc : ∀ k, k < 71681 →
      decide ((((fun y => y + 1 / 1024)^[k] (-6) : ℚ)) ≤ 64) = true := by
    intro k hk
    simp only [iterate_add_const, decide_eq_true_eq]
    have hk' : (k : ℚ) ≤ 71680 := by exact_mod_cast Nat.lt_succ_iff.mp hk
    have h2 : (k : ℚ) * (1 / 1024) ≤ 71680 * (1 / 1024) :=
      mul_le_mul_of_nonneg_right hk' (by norm_num)
    linarith
  have hs : decide ((((fun y => y + 1 / 1024)^[71681] (-6) : ℚ)) ≤ 64) = false := by
    simp only [iterate_add_const, decide_eq_false_iff_not]
    norm_num
  have e : cdfFile.rows = forLoop sweepFuel (fun x => decide (x ≤ 64))
      (fun x => x + 1 / 1024)
      (fun x => [(x, [EngineCall.cdf x false, EngineCall.cdf x true])]) (-6) := rfl
  rw [e, forLoop_eq_map (fun x => decide (x ≤ 64)) (fun x => x + 1 / 1024)
    (fun x => (x, [EngineCall.cdf x false, EngineCall.cdf x true])) 71681 (-6) sweepFuel
    (by norm_num [sweepFuel]) hc hs]
  simp only [iterate_add_const, gridC]

theorem quantile_rows_eq :
    quantileFile.rows = (List.range 8191).map fun k =>
      (gridQ k, [EngineCall.quantile (gridQ k) false]) := by
  have hc : ∀ k, k < 8191 →
      decide ((((fun y => y + 1 / 8192)^[k] (1 / 8192) : ℚ)) < 1) = true := by
    intro k hk
    simp only [iterate_add_const, decide_eq_true_eq]
    have hk' : (k : ℚ) ≤ 8190 := by exact_mod_cast Nat.lt_succ_iff.mp hk
    have h2 : (k : ℚ) * (1 / 8192) ≤ 8190 * (1 / 8192) :=
      mul_le_mul_of_nonneg_right hk' (by norm_num)
    linarith
  have hs : decide ((((fun y => y + 1 / 8192)^[8191] (1 / 8192) : ℚ)) < 1) = false := by
    simp only [iterate_add_const, decide_eq_false_iff_not]
    norm_num
  have e : quantileFile.rows = forLoop sweepFuel (fun x => decide (x < 1))
      (fun x => x + 1 / 8192) (fun x => [(x, [EngineCall.quantile x false])]) (1 / 8192) := rfl
  rw [e, forLoop_eq_map (fun x => decide (x < 1)) (fun x => x + 1 / 8192)
    (fun x => (x, [EngineCall.quantile x false])) 8191 (1 / 8192)
    sweepFuel (by norm_num [sweepFuel]) hc hs]
  simp only [iterate_add_const, gridQ]

theorem ldexp_64 : ldexp 1 64 = (2 : ℚ) ^ (64 : ℕ) := by norm_num [ldexp]

theorem ldexp_neg1000 : ldexp 1 (-1000) = 1 / (2 : ℚ) ^ (1000 : ℕ) := by norm_num [ldexp]

theorem ldexp_neg128 : ldexp 1 (-128) = 1 / (2 : ℚ) ^ (128 : ℕ) := by norm_num [ldexp]

theorem lowQ_eq (k : ℕ) : lowQ k = 1 / 2 ^ (13 + k) := by
  rw [lowQ, div_div, pow_add]
  norm_num

theorem upQ_eq (i j : ℕ) : upQ i j = (256 - (j : ℚ)) / 2 ^ (21 + i) := by
  rw [upQ, div_div, pow_add]
  field_simp
  ring_nf
  exact Or.inl trivial

theorem quantilelower_rows_eq :
    quantileLowerFile.rows = (List.range 987).map fun k =>
      (lowQ k, [EngineCall.quantile (lowQ k) false]) := by
  have hc : ∀ k, k < 987 →
      decide ((((fun y => y / 2)^[k] (1 / 8192) : ℚ)) > ldexp 1 (-1000)) = true := by
    intro k hk
    simp only [iterate_div_two, decide_eq_true_eq, ldexp_neg1000, gt_iff_lt]
    have h1 : (1 : ℚ) / 8192 / 2 ^ k = 1 / 2 ^ (13 + k) := by
      rw [div_div, pow_add]; norm_num
    rw [h1]
    apply one_div_lt_one_div_of_lt (by positivity)
    exact pow_lt_pow_right₀ (by norm_num) (by omega)
  have hs : decide ((((fun y => y / 2)^[987] (1 / 8192) : ℚ)) > ldexp 1 (-1000)) = false := by
    simp only [iterate_div_two, decide_eq_false_iff_not, ldexp_neg1000, gt_iff_lt, not_lt]
    have h1 : (1 : ℚ) / 8192 / 2 ^ 987 = 1 / 2 ^ (1000 : ℕ) := by
      rw [div_div]; norm_num
    rw [h1]
  have e : quantileLowerFile.rows = forLoop sweepFuel
      (fun x => decide (x > ldexp 1 (-1000))) (fun x => x / 2)
      (fun x => [(x, [EngineCall.quantile x false])]) (1 / 8192) := rfl
  rw [e, forLoop_eq_map (fun x => decide (x > ldexp 1 (-1000))) (fun x => x / 2)
    (fun x => (x, [EngineCall.quantile x false])) 987 (1 / 8192) sweepFuel
    (by norm_num [sweepFuel]) hc hs]
  simp only [iterate_div_two, lowQ]

theorem inner_ascending {α : Type*} (x0 : ℚ) (hx0 : 0 < x0) (g : ℚ → α) :
    forLoop sweepFuel (fun x => decide (x < x0 * 2)) (fun x => x + x0 / 256)
      (fun y => [g y]) x0 =
      (List.range 256).map fun j : ℕ => g (x0 + (j : ℚ) * (x0 / 256)) := by
  have hc : ∀ j, j < 256 →
      decide ((((fun y => y + x0 / 256)^[j] x0 : ℚ)) < x0 * 2) = true := by
    intro j hj
    simp only [iterate_add_const, decide_eq_true_eq]
    have hj' : (j : ℚ) ≤ 255 := by exact_mod_cast Nat.lt_succ_iff.mp hj
    have h2 : (j : ℚ) * (x0 / 256) ≤ 255 * (x0 / 256) :=
      mul_le_mul_of_nonneg_right hj' (by positivity)
    linarith
  have hs : decide ((((fun y => y + x0 / 256)^[256] x0 : ℚ)) < x0 * 2) = false := by
    simp only [iterate_add_const, decide_eq_false_iff_not, not_lt]
    push_cast
    linarith
  rw [forLoop_eq_map (fun x => decide (x < x0 * 2)) (fun x => x + x0 / 256) g 256 x0
    sweepFuel (by norm_num [sweepFuel]) hc hs]
  simp only [iterate_add_const]

theorem inner_descending {α : Type*} (x0 : ℚ) (hx0 : 0 < x0) (g : ℚ → α) :
    forLoop sweepFuel (fun x => decide (x > x0 / 2)) (fun x => x - x0 / 256)
      (fun y => [g y]) x0 =
      (List.range 128).map fun j : ℕ => g (x0 - (j : ℚ) * (x0 / 256)) := by
  have hc : ∀ j, j < 128 →
      decide ((((fun y => y - x0 / 256)^[j] x0 : ℚ)) > x0 / 2) = true := by
    intro j hj
    simp only [iterate_sub_const, decide_eq_true_eq, gt_iff_lt]
    have hj' : (j : ℚ) ≤ 127 := by exact_mod_cast Nat.lt_succ_iff.mp hj
    have h2 : (j : ℚ) * (x0 / 256) ≤ 127 * (x0 / 256) :=
      mul_le_mul_of_nonneg_right hj' (by positivity)
    linarith
  have hs : decide ((((fun y => y - x0 / 256)^[128] x0 : ℚ)) > x0 / 2) = false := by
    simp only [iterate_sub_const, decide_eq_false_iff_not, gt_iff_lt, not_lt]
    push_cast
    linarith
  rw [forLoop_eq_map (fun x => decide (x > x0 / 2)) (fun x => x - x0 / 256) g 128 x0
    sweepFuel (by norm_num [sweepFuel]) hc hs]
  simp only [iterate_sub_const]

theorem pdf_limit_rows_eq :
    pdfLimitFile.rows = (List.range 59).flatMap fun i =>
      (List.range 256).map fun j => (octaveX i j, [EngineCall.pdf (octaveX i j)]) := by
  have hc : ∀ i, i < 59 → decide ((((fun y => y * 2)^[i] (64 : ℚ))) ≤ ldexp 1 64) = true := by
    intro i hi
    simp only [iterate_mul_two, decide_eq_true_eq, ldexp_64]
    have h1 : (64 : ℚ) * 2 ^ i = 2 ^ (6 + i) := by rw [pow_add]; norm_num
    rw [h1]
    exact pow_le_pow_right₀ (by norm_num) (by omega)
  have hs : decide ((((fun y => y * 2)^[59] (64 : ℚ))) ≤ ldexp 1 64) = false := by
    simp only [iterate_mul_two, decide_eq_false_iff_not, not_le, ldexp_64]
    norm_num
  have e : pdfLimitFile.rows = forLoop sweepFuel (fun x0 => decide (x0 ≤ ldexp 1 64))
      (fun x0 => x0 * 2)
      (fun x0 => forLoop sweepFuel (fun x => decide (x < x0 * 2)) (fun x => x + x0 / 256)
        (fun x => [(x, [EngineCall.pdf x])]) x0) 64 := rfl
  rw [e, forLoop_eq (fun x0 => decide (x0 ≤ ldexp 1 64)) (fun x0 => x0 * 2) _ 59 64 sweepFuel
    (by norm_num [sweepFuel]) hc hs]
  apply flatMap_congr'
  intro i _
  simp only [iterate_mul_two]
  rw [inner_ascending (64 * 2 ^ i) (by positivity) (fun x => (x, [EngineCall.pdf x]))]
  simp only [octaveX]

theorem cdf_limit_rows_eq :
    cdfLimitFile.rows = (List.range 59).flatMap fun i =>
      (List.range 256).map fun j => (octaveX i j, [EngineCall.cdf (octaveX i j) true]) := by
  have hc : ∀ i, i < 59 → decide ((((fun y => y * 2)^[i] (64 : ℚ))) ≤ ldexp 1 64) = true := by
    intro i hi
    simp only [iterate_mul_two, decide_eq_true_eq, ldexp_64]
    have h1 : (64 : ℚ) * 2 ^ i = 2 ^ (6 + i) := by rw [pow_add]; norm_num
    rw [h1]
    exact pow_le_pow_right₀ (by norm_num) (by omega)
  have hs : decide ((((fun y => y * 2)^[59] (64 : ℚ))) ≤ ldexp 1 64) = false := by
    simp only [iterate_mul_two, decide_eq_false_iff_not, not_le, ldexp_64]
    norm_num
  have e : cdfLimitFile.rows = forLoop sweepFuel (fun x0 => decide (x0 ≤ ldexp 1 64))
      (fun x0 => x0 * 2)
      (fun x0 => forLoop sweepFuel (fun x => decide (x < x0 * 2)) (fun x => x + x0 / 256)
        (fun x => [(x, [EngineCall.cdf x true])]) x0) 64 := rfl
  rw [e, forLoop_eq (fun x0 => decide (x0 ≤ ldexp 1 64)) (fun x0 => x0 * 2) _ 59 64 sweepFuel
    (by norm_num [sweepFuel]) hc hs]
  apply flatMap_congr'
  intro i _
  simp only [iterate_mul_two]
  rw [inner_ascending (64 * 2 ^ i) (by positivity) (fun x => (x, [EngineCall.cdf x true]))]
  simp only [octaveX]

theorem quantileupper_rows_eq :
    quantileUpperFile.rows = (List.range 115).flatMap fun i =>
      (List.range 128).map fun j => (upQ i j, [EngineCall.quantile (upQ i j) true]) := by
  have hc : ∀ i, i < 115 →
      decide ((((fun y => y / 2)^[i] (1 / 8192 : ℚ))) > ldexp 1 (-128)) = true := by
    intro i hi
    simp only [iterate_div_two, decide_eq_true_eq, ldexp_neg128, gt_iff_lt]
    have h1 : (1 : ℚ) / 8192 / 2 ^ i = 1 / 2 ^ (13 + i) := by
      rw [div_div, pow_add]; norm_num
    rw [h1]
    apply one_div_lt_one_div_of_lt (by positivity)
    exact pow_lt_pow_right₀ (by norm_num) (by omega)
  have hs : decide ((((fun y => y / 2)^[115] (1 / 8192 : ℚ))) > ldexp 1 (-128)) = false := by
    simp only [iterate_div_two, decide_eq_false_iff_not, ldexp_neg128, gt_iff_lt, not_lt]
    rw [div_div]
    norm_num
  have e : quantileUpperFile.rows = forLoop sweepFuel
      (fun x0 => decide (x0 > ldexp 1 (-128))) (fun x0 => x0 / 2)
      (fun x0 => forLoop sweepFuel (fun x => decide (x > x0 / 2)) (fun x => x - x0 / 256)
        (fun x => [(x, [EngineCall.quantile x true])]) x0) (1 / 8192) := rfl
  rw [e, forLoop_eq (fun x0 => decide (x0 > ldexp 1 (-128))) (fun x0 => x0 / 2) _ 115
    (1 / 8192) sweepFuel (by norm_num [sweepFuel]) hc hs]
  apply flatMap_congr'
  intro i _
  simp only [iterate_div_two]
  rw [inner_descending (1 / 8192 / 2 ^ i) (by positivity)
    (fun x => (x, [EngineCall.quantile x true]))]
  simp only [upQ]

theorem pdf_inputs_eq : pdfFile.inputs = (List.range 71681).map gridC := by
  simp only [CSVFile.inputs, pdf_rows_eq, List.map_map]
  rfl

theorem cdf_inputs_eq : cdfFile.inputs = (List.range 71681).map gridC := by
  simp only [CSVFile.inputs, cdf_rows_eq, List.map_map]
  rfl

theorem quantile_inputs_eq : quantileFile.inputs = (List.range 8191).map gridQ := by
  simp only [CSVFile.inputs, quantile_rows_eq, List.map_map]
  rfl

theorem quantilelower_inputs_eq :
    quantileLowerFile.inputs = (List.range 987).map lowQ := by
  simp only [CSVFile.inputs, quantilelower_rows_eq, List.map_map]
  rfl

theorem pdf_limit_inputs_eq : pdfLimitFile.inputs = (List.range 59).flatMap fun i =>
    (List.range 256).map fun j => octaveX i j := by
  simp only [CSVFile.inputs, pdf_limit_rows_eq, List.map_flatMap, List.map_map]
  rfl

theorem cdf_limit_inputs_eq : cdfLimitFile.inputs = (List.range 59).flatMap fun i =>
    (List.range 256).map fun j => octaveX i j := by
  simp only [CSVFile.inputs, cdf_limit_rows_eq, List.map_flatMap, List.map_map]
  rfl

theorem quantileupper_inputs_eq :
    quantileUpperFile.inputs = (List.range 115).flatMap fun i =>
      (List.range 128).map fun j => upQ i j := by
  simp only [CSVFile.inputs, quantileupper_rows_eq, List.map_flatMap, List.map_map]
  rfl

theorem quantilelower_calls_eq :
    quantileLowerFile.calls = (List.range 987).map fun k =>
      EngineCall.quantile (lowQ k) false := by
  simp only [CSVFile.calls, quantilelower_rows_eq, List.flatMap_map]
  exact flatMap_single _ _

theorem quantileupper_calls_eq :
    quantileUpperFile.calls = (List.range 115).flatMap fun i =>
      (List.range 128).map fun j => EngineCall.quantile (upQ i j) true := by
  simp only [CSVFile.calls, quantileupper_rows_eq, List.flatMap_assoc]
  apply flatMap_congr'
  intro i _
  simp only [List.flatMap_map]
  exact flatMap_single _ _

theorem cdf_limit_calls_eq :
    cdfLimitFile.calls = (List.range 59).flatMap fun i =>
      (List.range 256).map fun j => EngineCall.cdf (octaveX i j) true := by
  simp only [CSVFile.calls, cdf_limit_rows_eq, List.flatMap_assoc]
  apply flatMap_congr'
  intro i _
  simp only [List.flatMap_map]
  exact flatMap_single _ _

/-- C2: for every finite x, `mapairy_cdf(x, false) + mapairy_cdf(x, true)` is 1
(exactly, in the spec model over the reals, which implies the claimed
machine-epsilon bound), for every engine satisfying the spec contract. -/
theorem C2_complement_identity (E : MapAiryEngine) (x : ℝ) :
    mapairy_cdf E x false + mapairy_cdf E x true = 1 := by
  simp only [mapairy_cdf, if_true, if_false, Bool.false_eq_true, ite_false, ite_true]
  ring

/-- C3: the CDF is monotone in x and the quantile is monotone in p on (0,1),
for every engine satisfying the spec contract. -/
theorem C3_monotonicity (E : MapAiryEngine) :
    (∀ x1 x2 : ℝ, x1 < x2 → mapairy_cdf E x1 false ≤ mapairy_cdf E x2 false) ∧
    (∀ p1 p2 : ℝ, 0 < p1 → p1 < p2 → p2 < 1 →
      mapairy_quantile E p1 false ≤ mapairy_quantile E p2 false) := by
  constructor
  · intro x1 x2 h
    simp only [mapairy_cdf, Bool.false_eq_true, ite_false]
    exact le_of_lt (E.cdf_strictMono h)
  · intro p1 p2 hp1 hlt hp2
    simp only [mapairy_quantile, Bool.false_eq_true, ite_false]
    have h1 : E.cdf (E.quantile0 p1) = p1 := E.quantile0_inv p1 hp1 (by linarith)
    have h2 : E.cdf (E.quantile0 p2) = p2 := E.quantile0_inv p2 (by linarith) hp2
    have hcdf : E.cdf (E.quantile0 p1) < E.cdf (E.quantile0 p2) := by
      rw [h1, h2]; exact hlt
    exact le_of_lt (E.cdf_strictMono.lt_iff_lt.mp hcdf)

/-- Witness for C3 at the concrete engine `refEngine`, `x1 = 0 < x2 = 1` and
`p1 = 1/4 < p2 = 1/2`. -/
theorem C3_monotonicity_witness :
    mapairy_cdf refEngine 0 false ≤ mapairy_cdf refEngine 1 false ∧
    mapairy_quantile refEngine (1 / 4) false ≤ mapairy_quantile refEngine (1 / 2) false :=
  ⟨(C3_monotonicity refEngine).1 0 1 (by norm_num),
   (C3_monotonicity refEngine).2 (1 / 4) (1 / 2) (by norm_num) (by norm_num) (by norm_num)⟩

/-- C4: the CDF inverts the quantile exactly in the spec model, in both direct
and complement mode (exact equality implies the claimed relative-error bound). -/
theorem C4_round_trip (E : MapAiryEngine) (p : ℝ) (hp0 : 0 < p) (hp1 : p < 1) :
    mapairy_cdf E (mapairy_quantile E p false) false = p ∧
    mapairy_cdf E (mapairy_quantile E p true) true = p := by
  constructor
  · simp only [mapairy_cdf, mapairy_quantile, Bool.false_eq_true, ite_false]
    exact E.quantile0_inv p hp0 hp1
  · simp only [mapairy_cdf, mapairy_quantile, ite_true]
    exact E.quantile1_inv p hp0 hp1

/-- Witness for C4 at the concrete engine `refEngine` and `p = 1/2`. -/
theorem C4_round_trip_witness :
    mapairy_cdf refEngine (mapairy_quantile refEngine (1 / 2) false) false = 1 / 2 ∧
    mapairy_cdf refEngine (mapairy_quantile refEngine (1 / 2) true) true = 1 / 2 :=
  C4_round_trip refEngine (1 / 2) (by norm_num) (by norm_num)

/-- C5: the CDF tail sweep does call `mapairy_cdf(x, true)` at `x = 2^64`, and
for every engine satisfying the spec contract the complement CDF there is
strictly positive (hence not 0; NaN does not exist in the exact real model)
and at most 1. -/
theorem C5_tail_saturation :
    EngineCall.cdf ((2 : ℚ) ^ 64) true ∈ cdfLimitFile.calls ∧
    ∀ E : MapAiryEngine,
      0 < mapairy_cdf E ((2 : ℝ) ^ 64) true ∧ mapairy_cdf E ((2 : ℝ) ^ 64) true ≤ 1 := by
  constructor
  · rw [cdf_limit_calls_eq]
    apply List.mem_flatMap.mpr
    refine ⟨58, by simp, ?_⟩
    apply List.mem_map.mpr
    refine ⟨0, by simp, ?_⟩
    norm_num [octaveX]
  · intro E
    simp only [mapairy_cdf, ite_true]
    constructor
    · have h1 : E.cdf ((2 : ℝ) ^ 64) < E.cdf ((2 : ℝ) ^ 64 + 1) :=
        E.cdf_strictMono (by linarith)
      have h2 := E.cdf_le_one ((2 : ℝ) ^ 64 + 1)
      linarith
    · have := E.cdf_nonneg ((2 : ℝ) ^ 64)
      linarith

/-- C1 counterexample: the lower-tail sweep never calls the quantile at
`p = 2^-1000` and the upper-tail sweep never calls it at `q = 2^-128`; both
loop conditions are strict, so the stated extreme probabilities are excluded. -/
theorem C1_counterexample :
    (1 / 2 ^ 1000 : ℚ) ∉ quantileLowerFile.inputs ∧
    (1 / 2 ^ 128 : ℚ) ∉ quantileUpperFile.inputs := by
  constructor
  · rw [quantilelower_inputs_eq]
    intro hmem
    obtain ⟨k, hk, heq⟩ := List.mem_map.mp hmem
    rw [List.mem_range] at hk
    rw [lowQ_eq] at heq
    have hlt : (1 : ℚ) / 2 ^ 1000 < 1 / 2 ^ (13 + k) :=
      one_div_lt_one_div_of_lt (by positivity)
        (pow_lt_pow_right₀ (by norm_num) (by omega))
    rw [heq] at hlt
    exact lt_irrefl _ hlt
  · rw [quantileupper_inputs_eq]
    intro hmem
    obtain ⟨i, hi, hmem2⟩ := List.mem_flatMap.mp hmem
    obtain ⟨j, hj, heq⟩ := List.mem_map.mp hmem2
    rw [List.mem_range] at hi hj
    rw [upQ_eq] at heq
    have hj' : (j : ℚ) ≤ 127 := by exact_mod_cast Nat.lt_succ_iff.mp hj
    rw [div_eq_div_iff (by positivity) (by positivity)] at heq
    have h1 : (129 : ℚ) * 2 ^ 128 ≤ (256 - (j : ℚ)) * 2 ^ 128 :=
      mul_le_mul_of_nonneg_right (by linarith) (by positivity)
    have h2 : (2 : ℚ) ^ (21 + i) ≤ 2 ^ 135 :=
      pow_le_pow_right₀ (by norm_num) (by omega)
    have h3 : (2 : ℚ) ^ 135 < 129 * 2 ^ 128 := by norm_num
    linarith

/-- C1 amended: the lower-tail sweep reaches exactly down to `p = 2^-999`
(not `2^-1000`), and the upper-tail sweep reaches exactly down to
`q = 129 * 2^-135` (about `1.008 * 2^-128`, never `2^-128` itself); both
extremes are attained with the stated complement flags. -/
theorem C1_amended_extremes :
    EngineCall.quantile (lowQ 986) false ∈ quantileLowerFile.calls ∧
    lowQ 986 = 1 / 2 ^ 999 ∧
    EngineCall.quantile (upQ 114 127) true ∈ quantileUpperFile.calls ∧
    upQ 114 127 = 129 / 2 ^ 135 ∧
    quantileLowerFile.inputs.Forall (fun p => 1 / 2 ^ 999 ≤ p) ∧
    quantileUpperFile.inputs.Forall (fun q => 129 / 2 ^ 135 ≤ q) := by
  refine ⟨?_, ?_, ?_, ?_, ?_, ?_⟩
  · rw [quantilelower_calls_eq]
    exact List.mem_map.mpr ⟨986, List.mem_range.mpr (by norm_num), rfl⟩
  · rw [lowQ_eq]
  · rw [quantileupper_calls_eq]
    exact List.mem_flatMap.mpr ⟨114, List.mem_range.mpr (by norm_num),
      List.mem_map.mpr ⟨127, List.mem_range.mpr (by norm_num), rfl⟩⟩
  · rw [upQ_eq]
    norm_num
  · rw [quantilelower_inputs_eq, List.forall_iff_forall_mem]
    intro p hp
    obtain ⟨k, hk, rfl⟩ := List.mem_map.mp hp
    rw [List.mem_range] at hk
    rw [lowQ_eq]
    exact one_div_le_one_div_of_le (by positivity)
      (pow_le_pow_right₀ (by norm_num) (by omega))
  · rw [quantileupper_inputs_eq, List.forall_iff_forall_mem]
    intro q hq
    obtain ⟨i, hi, h2⟩ := List.mem_flatMap.mp hq
    obtain ⟨j, hj, rfl⟩ := List.mem_map.mp h2
    rw [List.mem_range] at hi hj
    rw [upQ_eq, div_le_div_iff₀ (by positivity) (by positivity)]
    have hj' : (j : ℚ) ≤ 127 := by exact_mod_cast Nat.lt_succ_iff.mp hj
    have hi' : (2 : ℚ) ^ (21 + i) ≤ 2 ^ 135 :=
      pow_le_pow_right₀ (by norm_num) (by omega)
    have h1 : (129 : ℚ) * 2 ^ (21 + i) ≤ 129 * 2 ^ 135 :=
      mul_le_mul_of_nonneg_left hi' (by norm_num)
    have h2 : (129 : ℚ) * 2 ^ 135 ≤ (256 - (j : ℚ)) * 2 ^ 135 :=
      mul_le_mul_of_nonneg_right (by linarith) (by positivity)
    linarith

/-- C7: both central sweeps evaluate exactly the grid `x = -6 + k/1024` for
`k = 0, ..., 71680`, including both endpoints `-6` and `64`; the exact dyadic
model shows the accumulated step incurs no drift. -/
theorem C7_central_grid :
    pdfFile.inputs = (List.range 71681).map gridC ∧
    cdfFile.inputs = (List.range 71681).map gridC ∧
    gridC 0 = -6 ∧ gridC 71680 = 64 ∧
    (-6 : ℚ) ∈ pdfFile.inputs ∧ (64 : ℚ) ∈ pdfFile.inputs ∧
    (-6 : ℚ) ∈ cdfFile.inputs ∧ (64 : ℚ) ∈ cdfFile.inputs := by
  refine ⟨pdf_inputs_eq, cdf_inputs_eq, by norm_num [gridC], by norm_num [gridC],
    ?_, ?_, ?_, ?_⟩
  · rw [pdf_inputs_eq]
    exact List.mem_map.mpr ⟨0, List.mem_range.mpr (by norm_num), by norm_num [gridC]⟩
  · rw [pdf_inputs_eq]
    exact List.mem_map.mpr ⟨71680, List.mem_range.mpr (by norm_num), by norm_num [gridC]⟩
  · rw [cdf_inputs_eq]
    exact List.mem_map.mpr ⟨0, List.mem_range.mpr (by norm_num), by norm_num [gridC]⟩
  · rw [cdf_inputs_eq]
    exact List.mem_map.mpr ⟨71680, List.mem_range.mpr (by norm_num), by norm_num [gridC]⟩

/-- C6 counterexample: the right-tail sweeps pass arguments exceeding `2^64`;
for instance `x = 2^64 + 2^56` (octave base `2^64`, second inner step) is swept
by `plot_pdf_limit`, refuting the claimed bound `x ≤ 2^64`. -/
theorem C6_counterexample :
    ((2 : ℚ) ^ 64 + 2 ^ 56) ∈ pdfLimitFile.inputs ∧
    ¬((2 : ℚ) ^ 64 + 2 ^ 56 ≤ 2 ^ 64) := by
  constructor
  · rw [pdf_limit_inputs_eq]
    exact List.mem_flatMap.mpr ⟨58, List.mem_range.mpr (by norm_num),
      List.mem_map.mpr ⟨1, List.mem_range.mpr (by norm_num), by norm_num [octaveX]⟩⟩
  · norm_num

/-- C6 amended: the octave bases `2^6, ..., 2^64` are all swept by both limit
sweeps, and every argument `x` passed by them satisfies
`64 ≤ x ≤ 511 * 2^56` (the largest argument is `2^64 * 511/256`, just below
`2^65`, not `2^64`). -/
theorem C6_amended_limit_range :
    (∀ i : ℕ, i ≤ 58 →
      (2 : ℚ) ^ (6 + i) ∈ pdfLimitFile.inputs ∧ (2 : ℚ) ^ (6 + i) ∈ cdfLimitFile.inputs) ∧
    pdfLimitFile.inputs.Forall (fun x => 64 ≤ x ∧ x ≤ 511 * 2 ^ 56) ∧
    cdfLimitFile.inputs.Forall (fun x => 64 ≤ x ∧ x ≤ 511 * 2 ^ 56) := by
  have hoct : ∀ i : ℕ, octaveX i 0 = (2 : ℚ) ^ (6 + i) := by
    intro i
    rw [octaveX, pow_add]
    norm_num
  have hone : ∀ i : ℕ, (1 : ℚ) ≤ 2 ^ i := fun i => by
    simpa using pow_le_pow_right₀ (by norm_num : (1 : ℚ) ≤ 2) (Nat.zero_le i)
  have hbound : ∀ i j : ℕ, i < 59 → j < 256 →
      64 ≤ octaveX i j ∧ octaveX i j ≤ 511 * 2 ^ 56 := by
    intro i j hi hj
    have hi' : (2 : ℚ) ^ i ≤ 2 ^ 58 := pow_le_pow_right₀ (by norm_num) (by omega)
    have hj' : (j : ℚ) ≤ 255 := by exact_mod_cast Nat.lt_succ_iff.mp hj
    have hj0 : (0 : ℚ) ≤ (j : ℚ) := by positivity
    constructor
    · have h2 : (0 : ℚ) ≤ (j : ℚ) * (64 * 2 ^ i / 256) := by positivity
      have h3 : (64 : ℚ) ≤ 64 * 2 ^ i := by nlinarith [hone i]
      rw [octaveX]
      linarith
    · rw [octaveX]
      have e : 64 * (2 : ℚ) ^ i + (j : ℚ) * (64 * 2 ^ i / 256)
          = 64 * 2 ^ i * (256 + (j : ℚ)) / 256 := by ring
      rw [e]
      have hnum : 64 * (2 : ℚ) ^ i * (256 + (j : ℚ)) ≤ 64 * 2 ^ 58 * 511 := by
        apply mul_le_mul (by nlinarith [hi']) (by linarith) (by linarith) (by positivity)
      have hdiv : 64 * (2 : ℚ) ^ i * (256 + (j : ℚ)) / 256 ≤ 64 * 2 ^ 58 * 511 / 256 := by
        exact (div_le_div_iff_of_pos_right (by norm_num)).mpr hnum
      calc 64 * (2 : ℚ) ^ i * (256 + (j : ℚ)) / 256 ≤ 64 * 2 ^ 58 * 511 / 256 := hdiv
      _ = 511 * 2 ^ 56 := by norm_num
  refine ⟨?_, ?_, ?_⟩
  · intro i hi
    constructor
    · rw [pdf_limit_inputs_eq]
      exact List.mem_flatMap.mpr ⟨i, List.mem_range.mpr (by omega),
        List.mem_map.mpr ⟨0, List.mem_range.mpr (by norm_num), hoct i⟩⟩
    · rw [cdf_limit_inputs_eq]
      exact List.mem_flatMap.mpr ⟨i, List.mem_range.mpr (by omega),
        List.mem_map.mpr ⟨0, List.mem_range.mpr (by norm_num), hoct i⟩⟩
  · rw [pdf_limit_inputs_eq, List.forall_iff_forall_mem]
    intro x hx
    obtain ⟨i, hi, h2⟩ := List.mem_flatMap.mp hx
    obtain ⟨j, hj, rfl⟩ := List.mem_map.mp h2
    rw [List.mem_range] at hi hj
    exact hbound i j hi hj
  · rw [cdf_limit_inputs_eq, List.forall_iff_forall_mem]
    intro x hx
    obtain ⟨i, hi, h2⟩ := List.mem_flatMap.mp hx
    obtain ⟨j, hj, rfl⟩ := List.mem_map.mp h2
    rw [List.mem_range] at hi hj
    exact hbound i j hi hj

/-- Witness for C6 amended at the concrete octave `i = 0`: the base `2^6 = 64`
is swept by both limit files. -/
theorem C6_amended_witness :
    (2 : ℚ) ^ (6 + 0) ∈ pdfLimitFile.inputs ∧ (2 : ℚ) ^ (6 + 0) ∈ cdfLimitFile.inputs :=
  C6_amended_limit_range.1 0 (by norm_num)

/-- C9: every probability the harness passes to `mapairy_quantile` (across the
central, lower-limit and upper-limit sweeps) lies strictly inside `(0,1)`, so
the quantile domain-error branch is unreachable from this harness. -/
theorem C9_quantile_domain :
    (quantileFile.inputs ++ quantileLowerFile.inputs ++ quantileUpperFile.inputs).Forall
      (fun p => 0 < p ∧ p < 1) := by
  rw [List.forall_iff_forall_mem]
  intro p hp
  simp only [List.mem_append] at hp
  rcases hp with (hp | hp) | hp
  · rw [quantile_inputs_eq] at hp
    obtain ⟨k, hk, rfl⟩ := List.mem_map.mp hp
    rw [List.mem_range] at hk
    have hk' : (k : ℚ) ≤ 8190 := by exact_mod_cast Nat.lt_succ_iff.mp hk
    have h2 : (k : ℚ) * (1 / 8192) ≤ 8190 * (1 / 8192) :=
      mul_le_mul_of_nonneg_right hk' (by norm_num)
    constructor
    · rw [gridQ]
      positivity
    · rw [gridQ]
      linarith
  · rw [quantilelower_inputs_eq] at hp
    obtain ⟨k, hk, rfl⟩ := List.mem_map.mp hp
    rw [lowQ_eq]
    constructor
    · positivity
    · rw [div_lt_one (by positivity)]
      have h := pow_lt_pow_right₀ (by norm_num : (1 : ℚ) < 2) (by omega : 0 < 13 + k)
      simpa using h
  · rw [quantileupper_inputs_eq] at hp
    obtain ⟨i, hi, h2⟩ := List.mem_flatMap.mp hp
    obtain ⟨j, hj, rfl⟩ := List.mem_map.mp h2
    rw [List.mem_range] at hi hj
    have hj' : (j : ℚ) ≤ 127 := by exact_mod_cast Nat.lt_succ_iff.mp hj
    rw [upQ_eq]
    constructor
    · apply div_pos (by linarith) (by positivity)
    · rw [div_lt_one (by positivity)]
      have h21 : (2 : ℚ) ^ 21 ≤ 2 ^ (21 + i) :=
        pow_le_pow_right₀ (by norm_num) (by omega)
      have h256 : (256 : ℚ) < 2 ^ 21 := by norm_num
      have hj0 : (0 : ℚ) ≤ (j : ℚ) := by positivity
      linarith

/-- C10: every harness loop runs a fixed finite number of iterations:
71681 rows for each central sweep, 15104 for each right-tail limit sweep,
8191 for the central quantile sweep, 987 for the lower-tail and 14720 for the
upper-tail quantile sweep, and `main` performs its seven sweeps to completion. -/
theorem C10_iteration_counts :
    pdfFile.rows.length = 71681 ∧
    pdfLimitFile.rows.length = 15104 ∧
    cdfFile.rows.length = 71681 ∧
    cdfLimitFile.rows.length = 15104 ∧
    quantileFile.rows.length = 8191 ∧
    quantileLowerFile.rows.length = 987 ∧
    quantileUpperFile.rows.length = 14720 ∧
    mainRun.length = 7 := by
  refine ⟨?_, ?_, ?_, ?_, ?_, ?_, ?_, rfl⟩
  · rw [pdf_rows_eq]
    simp
  · rw [pdf_limit_rows_eq, List.length_flatMap]
    simp only [Function.comp_def, List.length_map, List.length_range, List.map_const',
      List.sum_replicate, smul_eq_mul]
  · rw [cdf_rows_eq]
    simp
  · rw [cdf_limit_rows_eq, List.length_flatMap]
    simp only [Function.comp_def, List.length_map, List.length_range, List.map_const',
      List.sum_replicate, smul_eq_mul]
  · rw [quantile_rows_eq]
    simp
  · rw [quantilelower_rows_eq]
    simp
  · rw [quantileupper_rows_eq, List.length_flatMap]
    simp only [Function.comp_def, List.length_map, List.length_range, List.map_const',
      List.sum_replicate, smul_eq_mul]

theorem pairwise_map_range {R : ℚ → ℚ → Prop} (n : ℕ) (f : ℕ → ℚ)
    (h : ∀ a b : ℕ, a < b → b < n → R (f a) (f b)) :
    List.Pairwise R ((List.range n).map f) := by
  rw [List.pairwise_map]
  refine List.Pairwise.imp_of_mem (fun {a b} ha hb hab => ?_) (List.pairwise_lt_range n)
  exact h a b hab (List.mem_range.mp hb)

theorem pairwise_flatMap_range {R : ℚ → ℚ → Prop} (n : ℕ) (f : ℕ → List ℚ)
    (hin : ∀ i, i < n → List.Pairwise R (f i))
    (hcross : ∀ i1 i2, i1 < i2 → i2 < n → ∀ x ∈ f i1, ∀ y ∈ f i2, R x y) :
    List.Pairwise R ((List.range n).flatMap f) := by
  rw [List.pairwise_flatMap]
  constructor
  · intro a ha
    exact hin a (List.mem_range.mp ha)
  · refine List.Pairwise.imp_of_mem (fun {a b} ha hb hab => ?_) (List.pairwise_lt_range n)
    exact hcross a b hab (List.mem_range.mp hb)

theorem octave_inputs_pairwise :
    List.Pairwise (· < ·)
      ((List.range 59).flatMap fun i => (List.range 256).map fun j => octaveX i j) := by
  apply pairwise_flatMap_range
  · intro i _
    apply pairwise_map_range
    intro a b hab _
    simp only [octaveX]
    have hpos : (0 : ℚ) < 64 * 2 ^ i / 256 := by positivity
    have hab' : (a : ℚ) < b := by exact_mod_cast hab
    have := mul_lt_mul_of_pos_right hab' hpos
    linarith
  · intro i1 i2 h12 _ x hx y hy
    obtain ⟨j, hj, rfl⟩ := List.mem_map.mp hx
    obtain ⟨j', hj', rfl⟩ := List.mem_map.mp hy
    rw [List.mem_range] at hj hj'
    have hj2 : (j : ℚ) ≤ 255 := by exact_mod_cast Nat.lt_succ_iff.mp hj
    have hA : (0 : ℚ) < 2 ^ i1 := by positivity
    have h1 : octaveX i1 j < 128 * 2 ^ i1 := by
      simp only [octaveX]
      have := mul_le_mul_of_nonneg_right hj2 (le_of_lt (by positivity : (0 : ℚ) < 64 * 2 ^ i1 / 256))
      linarith
    have hpow : (2 : ℚ) ^ (i1 + 1) ≤ 2 ^ i2 := pow_le_pow_right₀ (by norm_num) (by omega)
    rw [pow_succ] at hpow
    have h2 : (128 : ℚ) * 2 ^ i1 ≤ 64 * 2 ^ i2 := by
      have := mul_le_mul_of_nonneg_left hpow (by norm_num : (0 : ℚ) ≤ 64)
      linarith
    have h3 : 64 * (2 : ℚ) ^ i2 ≤ octaveX i2 j' := by
      simp only [octaveX]
      have : (0 : ℚ) ≤ (j' : ℚ) * (64 * 2 ^ i2 / 256) := by positivity
      linarith
    linarith

theorem upper_inputs_pairwise :
    List.Pairwise (· > ·)
      ((List.range 115).flatMap fun i => (List.range 128).map fun j => upQ i j) := by
  apply pairwise_flatMap_range
  · intro i _
    apply pairwise_map_range
    intro a b hab _
    simp only [upQ]
    have hpos : (0 : ℚ) < 1 / 8192 / 2 ^ i / 256 := by positivity
    have hab' : (a : ℚ) < b := by exact_mod_cast hab
    have := mul_lt_mul_of_pos_right hab' hpos
    simp only [gt_iff_lt]
    linarith
  · intro i1 i2 h12 _ x hx y hy
    obtain ⟨j, hj, rfl⟩ := List.mem_map.mp hx
    obtain ⟨j', hj', rfl⟩ := List.mem_map.mp hy
    rw [List.mem_range] at hj hj'
    have hj2 : (j : ℚ) ≤ 127 := by exact_mod_cast Nat.lt_succ_iff.mp hj
    have hj0' : (0 : ℚ) ≤ (j' : ℚ) := by positivity
    rw [upQ_eq, upQ_eq, gt_iff_lt]
    have hD1 : (0 : ℚ) < 2 ^ (21 + i1) := by positivity
    have hD2 : (0 : ℚ) < 2 ^ (21 + i2) := by positivity
    have hx_lb : (129 : ℚ) / 2 ^ (21 + i1) ≤ (256 - (j : ℚ)) / 2 ^ (21 + i1) :=
      (div_le_div_iff_of_pos_right hD1).mpr (by linarith)
    have hy_ub : (256 - (j' : ℚ)) / 2 ^ (21 + i2) ≤ 256 / 2 ^ (21 + i2) :=
      (div_le_div_iff_of_pos_right hD2).mpr (by linarith)
    have hkey : (256 : ℚ) / 2 ^ (21 + i2) < 129 / 2 ^ (21 + i1) := by
      rw [div_lt_div_iff₀ hD2 hD1]
      have e : 21 + i1 + 1 = 22 + i1 := by omega
      have hpow : (2 : ℚ) ^ (22 + i1) ≤ 2 ^ (21 + i2) :=
        pow_le_pow_right₀ (by norm_num) (by omega)
      rw [← e, pow_succ] at hpow
      have h5 : (129 : ℚ) * (2 ^ (21 + i1) * 2) ≤ 129 * 2 ^ (21 + i2) :=
        mul_le_mul_of_nonneg_left hpow (by norm_num)
      linarith
    linarith

/-- C8: each plot function writes one header row, sets scientific notation with
precision 16, emits one data row per swept input with the input followed by
that sweep's engine call(s), and the swept inputs are strictly monotone within
each file (stated as `List.Pairwise`, which implies strict monotonicity of
adjacent rows): ascending in `plot_pdf`, `plot_pdf_limit`, `plot_cdf`,
`plot_cdf_limit` and `plot_quantile`, descending in the two limit quantile
sweeps. -/
theorem C8_csv_structure :
    (pdfFile.header = "x,pdf" ∧ pdfFile.sci = true ∧ pdfFile.prec = 16) ∧
    (pdfLimitFile.header = "x,pdf" ∧ pdfLimitFile.sci = true ∧ pdfLimitFile.prec = 16) ∧
    (cdfFile.header = "x,cdf,ccdf" ∧ cdfFile.sci = true ∧ cdfFile.prec = 16) ∧
    (cdfLimitFile.header = "x,ccdf" ∧ cdfLimitFile.sci = true ∧ cdfLimitFile.prec = 16) ∧
    (quantileFile.header = "x,quantile" ∧ quantileFile.sci = true ∧
      quantileFile.prec = 16) ∧
    (quantileLowerFile.header = "x,quantile" ∧ quantileLowerFile.sci = true ∧
      quantileLowerFile.prec = 16) ∧
    (quantileUpperFile.header = "x,cquantile" ∧ quantileUpperFile.sci = true ∧
      quantileUpperFile.prec = 16) ∧
    pdfFile.rows.Forall (fun r => r.2 = [EngineCall.pdf r.1]) ∧
    pdfLimitFile.rows.Forall (fun r => r.2 = [EngineCall.pdf r.1]) ∧
    cdfFile.rows.Forall (fun r => r.2 = [EngineCall.cdf r.1 false, EngineCall.cdf r.1 true]) ∧
    cdfLimitFile.rows.Forall (fun r => r.2 = [EngineCall.cdf r.1 true]) ∧
    quantileFile.rows.Forall (fun r => r.2 = [EngineCall.quantile r.1 false]) ∧
    quantileLowerFile.rows.Forall (fun r => r.2 = [EngineCall.quantile r.1 false]) ∧
    quantileUpperFile.rows.Forall (fun r => r.2 = [EngineCall.quantile r.1 true]) ∧
    List.Pairwise (· < ·) pdfFile.inputs ∧
    List.Pairwise (· < ·) pdfLimitFile.inputs ∧
    List.Pairwise (· < ·) cdfFile.inputs ∧
    List.Pairwise (· < ·) cdfLimitFile.inputs ∧
    List.Pairwise (· < ·) quantileFile.inputs ∧
    List.Pairwise (· > ·) quantileLowerFile.inputs ∧
    List.Pairwise (· > ·) quantileUpperFile.inputs := by
  refine ⟨⟨rfl, rfl, rfl⟩, ⟨rfl, rfl, rfl⟩, ⟨rfl, rfl, rfl⟩, ⟨rfl, rfl, rfl⟩,
    ⟨rfl, rfl, rfl⟩, ⟨rfl, rfl, rfl⟩, ⟨rfl, rfl, rfl⟩,
    ?_, ?_, ?_, ?_, ?_, ?_, ?_, ?_, ?_, ?_, ?_, ?_, ?_, ?_⟩
  · rw [pdf_rows_eq, List.forall_iff_forall_mem]
    intro r hr
    obtain ⟨k, _, rfl⟩ := List.mem_map.mp hr
    rfl
  · rw [pdf_limit_rows_eq, List.forall_iff_forall_mem]
    intro r hr
    obtain ⟨i, _, h2⟩ := List.mem_flatMap.mp hr
    obtain ⟨j, _, rfl⟩ := List.mem_map.mp h2
    rfl
  · rw [cdf_rows_eq, List.forall_iff_forall_mem]
    intro r hr
    obtain ⟨k, _, rfl⟩ := List.mem_map.mp hr
    rfl
  · rw [cdf_limit_rows_eq, List.forall_iff_forall_mem]
    intro r hr
    obtain ⟨i, _, h2⟩ := List.mem_flatMap.mp hr
    obtain ⟨j, _, rfl⟩ := List.mem_map.mp h2
    rfl
  · rw [quantile_rows_eq, List.forall_iff_forall_mem]
    intro r hr
    obtain ⟨k, _, rfl⟩ := List.mem_map.mp hr
    rfl
  · rw [quantilelower_rows_eq, List.forall_iff_forall_mem]
    intro r hr
    obtain ⟨k, _, rfl⟩ := List.mem_map.mp hr
    rfl
  · rw [quantileupper_rows_eq, List.forall_iff_forall_mem]
    intro r hr
    obtain ⟨i, _, h2⟩ := List.mem_flatMap.mp hr
    obtain ⟨j, _, rfl⟩ := List.mem_map.mp h2
    rfl
  · rw [pdf_inputs_eq]
    apply pairwise_map_range
    intro a b hab _
    simp only [gridC]
    have hab' : (a : ℚ) < b := by exact_mod_cast hab
    have := mul_lt_mul_of_pos_right hab' (by norm_num : (0 : ℚ) < 1 / 1024)
    linarith
  · rw [pdf_limit_inputs_eq]
    exact octave_inputs_pairwise
  · rw [cdf_inputs_eq]
    apply pairwise_map_range
    intro a b hab _
    simp only [gridC]
    have hab' : (a : ℚ) < b := by exact_mod_cast hab
    have := mul_lt_mul_of_pos_right hab' (by norm_num : (0 : ℚ) < 1 / 1024)
    linarith
  · rw [cdf_limit_inputs_eq]
    exact octave_inputs_pairwise
  · rw [quantile_inputs_eq]
    apply pairwise_map_range
    intro a b hab _
    simp only [gridQ]
    have hab' : (a : ℚ) < b := by exact_mod_cast hab
    have := mul_lt_mul_of_pos_right hab' (by norm_num : (0 : ℚ) < 1 / 8192)
    linarith
  · rw [quantilelower_inputs_eq]
    apply pairwise_map_range
    intro a b hab _
    simp only [lowQ_eq, gt_iff_lt]
    exact one_div_lt_one_div_of_lt (by positivity)
      (pow_lt_pow_right₀ (by norm_num) (by omega))
  · rw [quantileupper_inputs_eq]
    exact upper_inputs_pairwise
